import Mathlib

/-!
Verification of the `toolbox` ledger-reconciliation utilities.

The development shallowly embeds the core of the three subcommands:

* `dedup` (src/toolbox/dedup.py): row-level cancelling-pair removal via
  `_find_pairs`, which keeps two dictionaries (`positives`, `negatives`)
  mapping `abs(amount)` to the row position, popping an opposite-sign
  entry on a hit and overwriting a same-sign entry on a miss;
* `dedupacct` (src/toolbox/dedupacct.py): aggregation of amounts per
  transaction identifier (pandas `groupby(sort=False, dropna=False).sum()`),
  the identical `_find_pairs` on the per-identifier sums, and removal of
  every row whose identifier occurs in a matched pair;
* `txlookup` (src/toolbox/txlookup.py): a two-pass lookup collecting the
  identifiers that carry a target amount (dropping null identifiers) and
  then emitting every row whose stringified identifier is in that set.

Amounts are embedded as `Int` (the claims under study do not depend on
fractional or floating-point behaviour); record positions as `Nat`;
transaction identifiers as `Option String`, `none` standing for a
null/NaN identifier, which pandas renders as the string `"nan"` when a
column is converted with `astype(str)` / `map(str)`.
-/

/-- Lookup in a Python dictionary keyed by amount key: the value stored
for `k`, or `none`.  (`negatives.pop(key, None)` first performs this
lookup.) -/
def bucketFind : List (Int × Nat) → Int → Option Nat
  | [], _ => none
  | (k', v) :: rest, k => if k' = k then some v else bucketFind rest k

/-- Removal of the entry for key `k`, as performed by `dict.pop`.  Buckets
built by `bucketInsert` from `[]` never hold two entries for one key, so
filtering every entry with key `k` coincides with removing the single
stored entry. -/
def bucketErase : List (Int × Nat) → Int → List (Int × Nat)
  | [], _ => []
  | (k', v) :: rest, k => if k' = k then bucketErase rest k else (k', v) :: bucketErase rest k

/-- Store `v` under key `k`, overwriting any previous entry for `k`
(`positives[key] = idx` on a Python dictionary is last-write-wins). -/
def bucketInsert (b : List (Int × Nat)) (k : Int) (v : Nat) : List (Int × Nat) :=
  (k, v) :: bucketErase b k

/-- State threaded through the `for idx, amount in iterable` loop of
`_find_pairs` in src/toolbox/dedup.py: the `positives` and `negatives`
dictionaries and the `pairs` list accumulated so far. -/
structure MatchState where
  positives : List (Int × Nat)
  negatives : List (Int × Nat)
  pairs : List (Nat × Nat)
deriving Repr, DecidableEq

/-- Starting state of `_find_pairs`: empty dictionaries, no pairs. -/
def initialMatchState : MatchState := ⟨[], [], []⟩

/-- One iteration of the `_find_pairs` loop on the record
`(idx, amount)`: `key = abs(amount)`; a non-negative amount pops the
negative bucket at `key` (emitting `(idx, neg_idx)` on a hit, inserting
into `positives` on a miss); a negative amount does the symmetric thing,
emitting `(pos_idx, idx)`. -/
def stepMatch (s : MatchState) (r : Nat × Int) : MatchState :=
  let idx := r.1
  let amount := r.2
  let key := |amount|
  if 0 ≤ amount then
    match bucketFind s.negatives key with
    | some negIdx =>
        { s with negatives := bucketErase s.negatives key
                 pairs := s.pairs ++ [(idx, negIdx)] }
    | none => { s with positives := bucketInsert s.positives key idx }
  else
    match bucketFind s.positives key with
    | some posIdx =>
        { s with positives := bucketErase s.positives key
                 pairs := s.pairs ++ [(posIdx, idx)] }
    | none => { s with negatives := bucketInsert s.negatives key idx }

/-- The `_find_pairs` function of src/toolbox/dedup.py on a sequence of
`(position, amount)` records: run the loop from the empty state and
return the accumulated pairs in emission order.  (The optional progress
bar only wraps the iterable and does not affect the computation.) -/
def findPairs (records : List (Nat × Int)) : List (Nat × Nat) :=
  (records.foldl stepMatch initialMatchState).pairs

/-- A DataFrame column of amounts is iterated as `(index, amount)` with
the default integer index `0, 1, 2, …`; `findPairsAmounts` is
`_find_pairs` on such a column. -/
def findPairsAmounts (amounts : List Int) : List (Nat × Nat) :=
  findPairs amounts.enum

/-- Positions removed by row mode, `[i for p in pairs for i in p]` in
`dedup_cmd`: both members of every emitted pair, flattened. -/
def removedPositions (pairs : List (Nat × Nat)) : List Nat :=
  pairs.flatMap (fun p => [p.1, p.2])

/-- The row-mode survivor computation of `dedup_cmd`
(src/toolbox/dedup.py line 72): `df.drop(index=[i for p in pairs for i in p])`,
i.e. the input sequence with every position occurring in a matched pair
removed and the remaining records kept in their original order with
their original positions. -/
def dedupRun (records : List (Nat × Int)) : List (Nat × Int) :=
  let pairs := findPairs records
  if pairs = [] then records
  else records.filter (fun r => decide (r.1 ∉ removedPositions pairs))

/-- The `_find_pairs` loop of src/toolbox/dedupacct.py (lines 41–61),
written as it stands there: direct recursion over the remaining records
carrying the `positives` and `negatives` dictionaries and the emitted
`pairs`. -/
def findPairsAcctGo (positives negatives : List (Int × Nat)) (pairs : List (Nat × Nat)) :
    List (Nat × Int) → List (Nat × Nat)
  | [] => pairs
  | (idx, amount) :: rest =>
    let key := |amount|
    if 0 ≤ amount then
      match bucketFind negatives key with
      | some negIdx =>
          findPairsAcctGo positives (bucketErase negatives key) (pairs ++ [(idx, negIdx)]) rest
      | none => findPairsAcctGo (bucketInsert positives key idx) negatives pairs rest
    else
      match bucketFind positives key with
      | some posIdx =>
          findPairsAcctGo (bucketErase positives key) negatives (pairs ++ [(posIdx, idx)]) rest
      | none => findPairsAcctGo positives (bucketInsert negatives key idx) pairs rest

/-- The `_find_pairs` function defined in src/toolbox/dedupacct.py:
empty dictionaries and pair list, then the loop. -/
def findPairsAcct (records : List (Nat × Int)) : List (Nat × Nat) :=
  findPairsAcctGo [] [] [] records

/-- A row of the account ledger as far as `dedupacct` inspects it: the
transaction-identifier column (`none` = null/NaN) and the numeric amount
column. -/
abbrev AcctRow := Option String × Int

/-- Stringification applied by `astype(str)` / `map(str)`: an actual
string is unchanged, and pandas renders a null/NaN entry as `"nan"`. -/
def strOfId : Option String → String
  | some s => s
  | none => "nan"

/-- Add one row's amount into the per-identifier accumulator: if a group
for the identifier already exists its sum is increased in place,
otherwise a new group is appended at the end (first-seen order). -/
def addToGroup : List (Option String × Int) → Option String → Int → List (Option String × Int)
  | [], k, a => [(k, a)]
  | (k', s) :: rest, k, a =>
    if k' = k then (k', s + a) :: rest else (k', s) :: addToGroup rest k a

/-- The Tx-level summary built by `dedupacct_cmd` (lines 118–124):
`df_acc.groupby(tx_col, dropna=False, sort=False)[amount_col].sum()`.
Groups appear in order of first occurrence of the identifier
(`sort=False`), null identifiers form a single group (`dropna=False`),
and each group carries the sum of its amounts. -/
def aggregate (rows : List AcctRow) : List (Option String × Int) :=
  rows.foldl (fun acc r => addToGroup acc r.1 r.2) []

/-- Distinct elements of a list in order of first occurrence. -/
def firstSeenKeys : List (Option String) → List (Option String)
  | [] => []
  | k :: ks => k :: firstSeenKeys (ks.filter (fun x => x ≠ k))
termination_by l => l.length
decreasing_by simp only [List.length_cons]; exact Nat.lt_succ_of_le (List.length_filter_le _ _)

/-- Sum of the amounts of the rows carrying identifier `k`. -/
def sumFor : List AcctRow → Option String → Int
  | [], _ => 0
  | r :: rest, k => (if r.1 = k then r.2 else 0) + sumFor rest k

/-- Declarative characterisation of the aggregation, written from the
spec's contract for the Identifier Aggregator: one group per distinct
identifier value in first-seen order, each carrying the arithmetic sum
of that identifier's amounts. -/
def aggSpec (rows : List AcctRow) : List (Option String × Int) :=
  (firstSeenKeys (rows.map Prod.fst)).map (fun k => (k, sumFor rows k))

/-- The matched pairs of `dedupacct_cmd` (line 127): `_find_pairs` on the
summary, whose `reset_index()` positions are `0, 1, 2, …` in group
order. -/
def acctPairs (rows : List AcctRow) : List (Nat × Nat) :=
  findPairsAcct ((aggregate rows).map Prod.snd).enum

/-- The removal identifier set of `dedupacct_cmd` (lines 132–134):
`summary.loc[[i for pair in pairs for i in pair], tx_col].astype(str)`,
the stringified identifiers found at either position of any matched
pair. -/
def txidsToDrop (rows : List AcctRow) : List String :=
  (removedPositions (acctPairs rows)).filterMap
    (fun i => ((aggregate rows).get? i).map (fun g => strOfId g.1))

/-- The survivor computation of `dedupacct_cmd` (lines 128–136): if no
pairs were found the data is unchanged, otherwise
`df_acc[~df_acc[tx_col].astype(str).isin(txids_to_drop)]` keeps exactly
the rows whose stringified identifier is outside the removal set, in
original order. -/
def dedupacctClean (rows : List AcctRow) : List AcctRow :=
  if acctPairs rows = [] then rows
  else rows.filter (fun r => decide (strOfId r.1 ∉ txidsToDrop rows))

/-- Pass 1 of `txlookup_cmd` (lines 72–76):
`df.loc[df[amount_col] == lookup, tx_col].dropna().unique()` collected
over all files — the identifiers of rows whose amount equals the target,
null identifiers dropped.  Only membership in the resulting set is ever
used, so it is kept as a list. -/
def pass1Ids (rows : List AcctRow) (target : Int) : List String :=
  rows.filterMap (fun r => if r.2 = target then r.1 else none)

/-- Pass 2 of `txlookup_cmd` (lines 85–90):
`df[df[tx_col].astype(str).isin(target_txids)]` over all files — every
row whose stringified identifier is in the Pass 1 set, in original
order. -/
def pass2Rows (rows : List AcctRow) (target : Int) : List AcctRow :=
  rows.filter (fun r => decide (strOfId r.1 ∈ pass1Ids rows target))

/-- The lookup engine (lines 71–90): `NoMatchError` (exit code 1) when
Pass 1 finds no identifier, the Pass 2 rows otherwise. -/
def txlookupRun (rows : List AcctRow) (target : Int) : Except String (List AcctRow) :=
  if pass1Ids rows target = [] then Except.error "NoMatchError"
  else Except.ok (pass2Rows rows target)

/-- Amount-column normalization shared by `dedup_cmd` (lines 64–66) and
`dedupacct_cmd` (lines 114–116): `pd.to_numeric(col, errors="coerce")`
turns each unparseable value into NaN (here `none`), and if any value is
NaN the whole operation fails with the `NonNumericValueError` message
before any matching is attempted. -/
def normalizeAmounts (vals : List (Option Int)) : Except String (List Int) :=
  if none ∈ vals then Except.error "NonNumericValueError"
  else Except.ok (vals.filterMap id)

/-- The `dedup_cmd` pipeline from normalization on: normalize the amount
column, then find pairs and drop the matched rows. -/
def dedupCmdRun (vals : List (Option Int)) : Except String (List (Nat × Int)) :=
  match normalizeAmounts vals with
  | Except.error e => Except.error e
  | Except.ok amounts => Except.ok (dedupRun amounts.enum)

/-- The `dedupacct_cmd` pipeline from normalization on: normalize the
amount column of the filtered rows, then aggregate, match and drop. -/
def dedupacctCmdRun (rows : List (Option String × Option Int)) : Except String (List AcctRow) :=
  match normalizeAmounts (rows.map Prod.snd) with
  | Except.error e => Except.error e
  | Except.ok _ =>
      Except.ok (dedupacctClean (rows.filterMap (fun r => r.2.map (fun a => (r.1, a)))))

/-- Multiset of all record positions held by a match state: both members
of every emitted pair together with the positions currently stored in
the two buckets. -/
def statePos (s : MatchState) : Multiset Nat :=
  (removedPositions s.pairs : Multiset Nat) + (s.positives.map Prod.snd : Multiset Nat)
    + (s.negatives.map Prod.snd : Multiset Nat)









/-! ### Basic bucket and step lemmas -/

theorem bucketFind_insert_self (b : List (Int × Nat)) (k : Int) (v : Nat) :
    bucketFind (bucketInsert b k v) k = some v := by
  simp [bucketInsert, bucketFind]

theorem stepMatch_nonneg_hit (s : MatchState) (idx : Nat) (amount : Int) (negIdx : Nat)
    (h : 0 ≤ amount) (hf : bucketFind s.negatives |amount| = some negIdx) :
    stepMatch s (idx, amount) =
      { s with negatives := bucketErase s.negatives |amount|
               pairs := s.pairs ++ [(idx, negIdx)] } := by
  simp [stepMatch, h, hf]

theorem stepMatch_nonneg_miss (s : MatchState) (idx : Nat) (amount : Int)
    (h : 0 ≤ amount) (hf : bucketFind s.negatives |amount| = none) :
    stepMatch s (idx, amount) =
      { s with positives := bucketInsert s.positives |amount| idx } := by
  simp [stepMatch, h, hf]

theorem stepMatch_neg_hit (s : MatchState) (idx : Nat) (amount : Int) (posIdx : Nat)
    (h : amount < 0) (hf : bucketFind s.positives |amount| = some posIdx) :
    stepMatch s (idx, amount) =
      { s with positives := bucketErase s.positives |amount|
               pairs := s.pairs ++ [(posIdx, idx)] } := by
  simp [stepMatch, not_le.mpr h, hf]

theorem stepMatch_neg_miss (s : MatchState) (idx : Nat) (amount : Int)
    (h : amount < 0) (hf : bucketFind s.positives |amount| = none) :
    stepMatch s (idx, amount) =
      { s with negatives := bucketInsert s.negatives |amount| idx } := by
  simp [stepMatch, not_le.mpr h, hf]

/-! ### C1: greedy matching, last-write-wins buckets -/

/-- C1.  Feeding the amounts `[+10, -10, -10]` to the pair-matching
engine emits exactly the pair `(0, 1)` and position `2` stays unmatched;
and in general, from any state whose opposite-sign bucket is empty at
the key, two same-sign records with one AmountKey followed by an
opposite-sign record with that key produce exactly one pair, matching
the later (most recently inserted) of the two same-sign records, because
insertion overwrites the earlier one. -/
theorem greedy_overwrite_matching :
    findPairsAmounts [10, -10, -10] = [(0, 1)] ∧
    2 ∉ removedPositions (findPairsAmounts [10, -10, -10]) ∧
    ∀ (s : MatchState) (p q r : Nat) (a b : Int), |b| = |a| →
      (0 ≤ a → b < 0 → bucketFind s.negatives |a| = none →
        ([(p, a), (q, a), (r, b)].foldl stepMatch s).pairs = s.pairs ++ [(q, r)]) ∧
      (a < 0 → 0 ≤ b → bucketFind s.positives |a| = none →
        ([(p, a), (q, a), (r, b)].foldl stepMatch s).pairs = s.pairs ++ [(r, q)]) := by
  refine ⟨by decide, by decide, ?_⟩
  intro s p q r a b hkey
  constructor
  · intro ha hb hf
    have h1 : stepMatch s (p, a) = { s with positives := bucketInsert s.positives |a| p } :=
      stepMatch_nonneg_miss s p a ha hf
    have h2 : stepMatch { s with positives := bucketInsert s.positives |a| p } (q, a) =
        { s with positives := bucketInsert (bucketInsert s.positives |a| p) |a| q } :=
      stepMatch_nonneg_miss _ q a ha hf
    have h3 : stepMatch
        { s with positives := bucketInsert (bucketInsert s.positives |a| p) |a| q } (r, b) =
        { s with positives := bucketErase (bucketInsert (bucketInsert s.positives |a| p) |a| q) |b|
                 pairs := s.pairs ++ [(q, r)] } :=
      stepMatch_neg_hit _ r b q hb (by rw [hkey]; exact bucketFind_insert_self _ _ _)
    simp [h1, h2, h3]
  · intro ha hb hf
    have h1 : stepMatch s (p, a) = { s with negatives := bucketInsert s.negatives |a| p } :=
      stepMatch_neg_miss s p a ha hf
    have h2 : stepMatch { s with negatives := bucketInsert s.negatives |a| p } (q, a) =
        { s with negatives := bucketInsert (bucketInsert s.negatives |a| p) |a| q } :=
      stepMatch_neg_miss _ q a ha hf
    have h3 : stepMatch
        { s with negatives := bucketInsert (bucketInsert s.negatives |a| p) |a| q } (r, b) =
        { s with negatives := bucketErase (bucketInsert (bucketInsert s.negatives |a| p) |a| q) |b|
                 pairs := s.pairs ++ [(r, q)] } :=
      stepMatch_nonneg_hit _ r b q hb (by rw [hkey]; exact bucketFind_insert_self _ _ _)
    simp [h1, h2, h3]

/-- Witness for C1: the general statement at the concrete scenario
`[-10, -10, +10]` from the empty state — the second `-10` (position 1)
is the one matched. -/
theorem greedy_overwrite_matching_witness :
    ([((0 : Nat), (-10 : Int)), (1, -10), (2, 10)].foldl stepMatch initialMatchState).pairs =
      initialMatchState.pairs ++ [(2, 1)] :=
  (greedy_overwrite_matching.2.2 initialMatchState 0 1 2 (-10) 10 (by decide)).2
    (by decide) (by decide) (by decide)

/-! ### C9: the two `_find_pairs` definitions agree -/

theorem findPairsAcctGo_eq_foldl (l : List (Nat × Int)) :
    ∀ (pos neg : List (Int × Nat)) (pairs : List (Nat × Nat)),
      findPairsAcctGo pos neg pairs l = (l.foldl stepMatch ⟨pos, neg, pairs⟩).pairs := by
  induction l with
  | nil => intro pos neg pairs; rfl
  | cons x rest ih =>
    intro pos neg pairs
    obtain ⟨idx, amount⟩ := x
    by_cases h : 0 ≤ amount
    · rcases hf : bucketFind neg |amount| with _ | negIdx
      · rw [List.foldl_cons, stepMatch_nonneg_miss ⟨pos, neg, pairs⟩ idx amount h hf]
        simpa [findPairsAcctGo, h, hf] using ih (bucketInsert pos |amount| idx) neg pairs
      · rw [List.foldl_cons, stepMatch_nonneg_hit ⟨pos, neg, pairs⟩ idx amount negIdx h hf]
        simpa [findPairsAcctGo, h, hf] using ih pos (bucketErase neg |amount|) (pairs ++ [(idx, negIdx)])
    · have h' : amount < 0 := not_le.mp h
      rcases hf : bucketFind pos |amount| with _ | posIdx
      · rw [List.foldl_cons, stepMatch_neg_miss ⟨pos, neg, pairs⟩ idx amount h' hf]
        simpa [findPairsAcctGo, h, hf] using ih pos (bucketInsert neg |amount| idx) pairs
      · rw [List.foldl_cons, stepMatch_neg_hit ⟨pos, neg, pairs⟩ idx amount posIdx h' hf]
        simpa [findPairsAcctGo, h, hf] using ih (bucketErase pos |amount|) neg (pairs ++ [(posIdx, idx)])

/-- C9.  The `_find_pairs` of src/toolbox/dedup.py and the `_find_pairs`
of src/toolbox/dedupacct.py are extensionally equal: on every sequence
of (position, amount) records they return the same pairs in the same
order. -/
theorem findPairs_eq_findPairsAcct (records : List (Nat × Int)) :
    findPairs records = findPairsAcct records :=
  (findPairsAcctGo_eq_foldl records [] [] []).symm

/-! ### C2: no position is matched twice -/

theorem bucketErase_sublist (b : List (Int × Nat)) (k : Int) : (bucketErase b k).Sublist b := by
  induction b with
  | nil => simp [bucketErase]
  | cons e rest ih =>
    obtain ⟨k', v⟩ := e
    by_cases h : k' = k
    · simpa [bucketErase, h] using ih.cons (k', v)
    · simpa [bucketErase, h] using ih.cons₂ (k', v)

theorem bucketErase_le (b : List (Int × Nat)) (k : Int) :
    (((bucketErase b k).map Prod.snd : List Nat) : Multiset Nat) ≤ (b.map Prod.snd : List Nat) :=
  Multiset.coe_le.mpr ((bucketErase_sublist b k).map Prod.snd).subperm

theorem bucketFind_erase_le (b : List (Int × Nat)) (k : Int) (v : Nat)
    (hf : bucketFind b k = some v) :
    v ::ₘ (((bucketErase b k).map Prod.snd : List Nat) : Multiset Nat)
      ≤ ((b.map Prod.snd : List Nat) : Multiset Nat) := by
  induction b with
  | nil => simp [bucketFind] at hf
  | cons e rest ih =>
    obtain ⟨k', w⟩ := e
    by_cases h : k' = k
    · have hv : w = v := by simpa [bucketFind, h] using hf
      subst hv
      simpa [bucketErase, h, ← Multiset.cons_coe] using
        Multiset.cons_le_cons w (bucketErase_le rest k)
    · have hf' : bucketFind rest k = some v := by simpa [bucketFind, h] using hf
      have := Multiset.cons_le_cons w (ih hf')
      simpa [bucketErase, h, ← Multiset.cons_coe, Multiset.cons_swap] using this

theorem removedPositions_append (p q : List (Nat × Nat)) :
    removedPositions (p ++ q) = removedPositions p ++ removedPositions q := by
  simp [removedPositions]

theorem statePos_step_le (s : MatchState) (x : Nat × Int) :
    statePos (stepMatch s x) ≤ x.1 ::ₘ statePos s := by
  obtain ⟨idx, amount⟩ := x
  by_cases h : 0 ≤ amount
  · rcases hf : bucketFind s.negatives |amount| with _ | negIdx
    · rw [stepMatch_nonneg_miss s idx amount h hf]
      have hE := bucketErase_le s.positives |amount|
      simp only [statePos, bucketInsert, List.map_cons, ← Multiset.cons_coe,
        ← Multiset.singleton_add] at *
      rw [show (↑(removedPositions s.pairs) : Multiset Nat)
            + ({idx} + ↑((bucketErase s.positives |amount|).map Prod.snd))
            + ↑(s.negatives.map Prod.snd)
          = {idx} + ((↑(removedPositions s.pairs)
              + ↑((bucketErase s.positives |amount|).map Prod.snd))
              + ↑(s.negatives.map Prod.snd)) from by abel]
      exact add_le_add_left (add_le_add (add_le_add le_rfl hE) le_rfl) _
    · rw [stepMatch_nonneg_hit s idx amount negIdx h hf]
      have key := bucketFind_erase_le s.negatives |amount| negIdx hf
      simp only [statePos, removedPositions, List.flatMap_append, List.flatMap_cons,
        List.flatMap_nil, List.append_nil, ← Multiset.coe_add, ← Multiset.cons_coe,
        Multiset.coe_nil, ← Multiset.singleton_add, add_zero] at *
      rw [show (↑(s.pairs.flatMap fun p => [p.1, p.2]) : Multiset Nat)
            + ({idx} + {negIdx})
            + ↑(s.positives.map Prod.snd)
            + ↑((bucketErase s.negatives |amount|).map Prod.snd)
          = {idx} + ((↑(s.pairs.flatMap fun p => [p.1, p.2])
              + ↑(s.positives.map Prod.snd))
              + ({negIdx} + ↑((bucketErase s.negatives |amount|).map Prod.snd))) from by abel]
      exact add_le_add_left (add_le_add_left key _) _
  · have h' : amount < 0 := not_le.mp h
    rcases hf : bucketFind s.positives |amount| with _ | posIdx
    · rw [stepMatch_neg_miss s idx amount h' hf]
      have hE := bucketErase_le s.negatives |amount|
      simp only [statePos, bucketInsert, List.map_cons, ← Multiset.cons_coe,
        ← Multiset.singleton_add] at *
      rw [show (↑(removedPositions s.pairs) : Multiset Nat)
            + ↑(s.positives.map Prod.snd)
            + ({idx} + ↑((bucketErase s.negatives |amount|).map Prod.snd))
          = {idx} + ((↑(removedPositions s.pairs)
              + ↑(s.positives.map Prod.snd))
              + ↑((bucketErase s.negatives |amount|).map Prod.snd)) from by abel]
      exact add_le_add_left (add_le_add le_rfl hE) _
    · rw [stepMatch_neg_hit s idx amount posIdx h' hf]
      have key := bucketFind_erase_le s.positives |amount| posIdx hf
      simp only [statePos, removedPositions, List.flatMap_append, List.flatMap_cons,
        List.flatMap_nil, List.append_nil, ← Multiset.coe_add, ← Multiset.cons_coe,
        Multiset.coe_nil, ← Multiset.singleton_add, add_zero] at *
      rw [show (↑(s.pairs.flatMap fun p => [p.1, p.2]) : Multiset Nat)
            + ({posIdx} + {idx})
            + ↑((bucketErase s.positives |amount|).map Prod.snd)
            + ↑(s.negatives.map Prod.snd)
          = {idx} + ((↑(s.pairs.flatMap fun p => [p.1, p.2])
              + ↑(s.negatives.map Prod.snd))
              + ({posIdx} + ↑((bucketErase s.positives |amount|).map Prod.snd))) from by abel]
      rw [show ({idx} : Multiset Nat) + (↑(s.pairs.flatMap fun p => [p.1, p.2])
            + ↑(s.positives.map Prod.snd) + ↑(s.negatives.map Prod.snd))
          = {idx} + ((↑(s.pairs.flatMap fun p => [p.1, p.2])
              + ↑(s.negatives.map Prod.snd)) + ↑(s.positives.map Prod.snd)) from by abel]
      exact add_le_add_left (add_le_add_left key _) _

theorem statePos_foldl_le (l : List (Nat × Int)) :
    ∀ s : MatchState,
      statePos (l.foldl stepMatch s) ≤ statePos s + ((l.map Prod.fst : List Nat) : Multiset Nat) := by
  induction l with
  | nil => intro s; simp
  | cons x rest ih =>
    intro s
    calc statePos ((x :: rest).foldl stepMatch s)
        = statePos (rest.foldl stepMatch (stepMatch s x)) := by rw [List.foldl_cons]
      _ ≤ statePos (stepMatch s x) + ((rest.map Prod.fst : List Nat) : Multiset Nat) := ih _
      _ ≤ (x.1 ::ₘ statePos s) + ((rest.map Prod.fst : List Nat) : Multiset Nat) :=
          add_le_add_right (statePos_step_le s x) _
      _ = statePos s + (((x :: rest).map Prod.fst : List Nat) : Multiset Nat) := by
          simp only [List.map_cons, ← Multiset.cons_coe, ← Multiset.singleton_add]
          abel

theorem removedPositions_length (pairs : List (Nat × Nat)) :
    (removedPositions pairs).length = 2 * pairs.length := by
  induction pairs with
  | nil => rfl
  | cons p rest ih => simp [removedPositions, List.flatMap_cons] at *; omega

theorem statePos_initial : statePos initialMatchState = 0 := rfl

/-- C2.  When the input positions are pairwise distinct (as DataFrame
index values are), no position occurs twice in the emitted pairs —
neither inside one pair nor across pairs — and the number of positions
removed in row mode is exactly twice the number of pairs, hence even. -/
theorem findPairs_positions_nodup (records : List (Nat × Int))
    (h : (records.map Prod.fst).Nodup) :
    (removedPositions (findPairs records)).Nodup ∧
    (removedPositions (findPairs records)).length = 2 * (findPairs records).length ∧
    Even (removedPositions (findPairs records)).length := by
  refine ⟨?_, removedPositions_length _, ?_⟩
  · have hle := statePos_foldl_le records initialMatchState
    rw [statePos_initial, zero_add] at hle
    have hnd : Multiset.Nodup ((records.map Prod.fst : List Nat) : Multiset Nat) :=
      Multiset.coe_nodup.mpr h
    have hnd' : Multiset.Nodup (statePos (records.foldl stepMatch initialMatchState)) :=
      Multiset.nodup_of_le hle hnd
    have hsub : ((removedPositions (findPairs records) : List Nat) : Multiset Nat)
        ≤ statePos (records.foldl stepMatch initialMatchState) := by
      simp only [statePos, findPairs, add_assoc]
      exact le_add_right le_rfl
    exact Multiset.coe_nodup.mp (Multiset.nodup_of_le hsub hnd')
  · rw [removedPositions_length]
    exact even_two_mul _

/-- Witness for C2 at the concrete input `[+10, -10, -10]` with
positions `0, 1, 2`. -/
theorem findPairs_positions_nodup_witness :
    (removedPositions (findPairs ([10, -10, -10] : List Int).enum)).Nodup ∧
    (removedPositions (findPairs ([10, -10, -10] : List Int).enum)).length =
      2 * (findPairs ([10, -10, -10] : List Int).enum).length ∧
    Even (removedPositions (findPairs ([10, -10, -10] : List Int).enum)).length :=
  findPairs_positions_nodup ([10, -10, -10] : List Int).enum (by decide)

/-! ### C3: re-running row mode is not a fixed point in general -/

/-- Counterexample to C3 as stated.  On the amounts
`[+10, +10, -10, -10]` the first run pairs positions 1 and 2 (the
second `+10` overwrote the first in the bucket), the survivors are
positions 0 and 3 with amounts `+10` and `-10`, and a second run of the
pair-matching engine on that survivor set emits the new pair `(0, 3)` —
not zero new pairs. -/
theorem dedupRun_not_fixed_point :
    findPairs ([10, 10, -10, -10] : List Int).enum = [(1, 2)] ∧
    dedupRun ([10, 10, -10, -10] : List Int).enum = [(0, 10), (3, -10)] ∧
    findPairs (dedupRun ([10, 10, -10, -10] : List Int).enum) = [(0, 3)] := by
  refine ⟨by decide, by decide, by decide⟩

/-- C3 amended.  Row-mode reconciliation is a fixed point on
already-clean inputs: if a run finds zero pairs the survivor set equals
the input, and re-running on it again yields zero pairs.  (On inputs
where pairs are found, re-running the engine on the survivors may emit
new pairs, as the counterexample shows.) -/
theorem dedupRun_fixed_point_of_no_pairs (records : List (Nat × Int))
    (h : findPairs records = []) :
    dedupRun records = records ∧ findPairs (dedupRun records) = [] := by
  have hrun : dedupRun records = records := by simp [dedupRun, h]
  exact ⟨hrun, by rw [hrun, h]⟩

/-- Witness for the amended C3 on a pair-free input. -/
theorem dedupRun_fixed_point_of_no_pairs_witness :
    dedupRun ([5, 7] : List Int).enum = ([5, 7] : List Int).enum ∧
    findPairs (dedupRun ([5, 7] : List Int).enum) = [] :=
  dedupRun_fixed_point_of_no_pairs ([5, 7] : List Int).enum (by decide)

/-! ### C4: survivors keep the input order -/

/-- C4.  In both modes the survivor sequence is a subsequence of the
input sequence: the surviving records appear in exactly their original
relative order (row mode drops matched positions, identifier mode drops
matched identifiers; neither reorders). -/
theorem survivors_sublist (records : List (Nat × Int)) (rows : List AcctRow) :
    (dedupRun records).Sublist records ∧ (dedupacctClean rows).Sublist rows := by
  constructor
  · unfold dedupRun
    by_cases h : findPairs records = []
    · simp [h]
    · simp only [h, if_neg h]
      exact List.filter_sublist _
  · unfold dedupacctClean
    by_cases h : acctPairs rows = []
    · simp [h]
    · simp only [h, if_neg h]
      exact List.filter_sublist _

/-! ### C6: identifier aggregation -/

theorem mem_firstSeenKeys (l : List (Option String)) (k : Option String) :
    k ∈ firstSeenKeys l ↔ k ∈ l := by
  induction l using firstSeenKeys.induct with
  | case1 => simp [firstSeenKeys]
  | case2 a ks ih =>
    by_cases hk : k = a
    · simp [firstSeenKeys, hk]
    · simp only [firstSeenKeys, List.mem_cons, hk, false_or, ih, List.mem_filter,
        decide_eq_true_eq]
      exact ⟨fun h => h.1, fun h => ⟨h, hk⟩⟩

theorem firstSeenKeys_nodup (l : List (Option String)) : (firstSeenKeys l).Nodup := by
  induction l using firstSeenKeys.induct with
  | case1 => simp [firstSeenKeys]
  | case2 a ks ih =>
    rw [firstSeenKeys, List.nodup_cons]
    refine ⟨fun h => ?_, ih⟩
    have := (mem_firstSeenKeys _ _).mp h
    simp [List.mem_filter] at this

theorem firstSeenKeys_append_singleton (l : List (Option String)) (k : Option String) :
    firstSeenKeys (l ++ [k]) =
      if k ∈ l then firstSeenKeys l else firstSeenKeys l ++ [k] := by
  induction l using firstSeenKeys.induct with
  | case1 => simp [firstSeenKeys]
  | case2 a ks ih =>
    by_cases hk : k = a
    · subst hk
      simp only [List.cons_append, firstSeenKeys, List.filter_append]
      simp [List.filter]
    · simp only [List.cons_append, firstSeenKeys, List.filter_append]
      have hfk : [k].filter (fun x => x ≠ a) = [k] := by simp [List.filter, hk]
      rw [hfk, ih]
      have hmem : k ∈ ks.filter (fun x => x ≠ a) ↔ k ∈ ks := by
        simp only [List.mem_filter, decide_eq_true_eq]
        exact ⟨fun h => h.1, fun h => ⟨h, hk⟩⟩
      by_cases hks : k ∈ ks
      · rw [if_pos (hmem.mpr hks), if_pos (by simp [hks])]
      · rw [if_neg (fun h => hks (hmem.mp h)), if_neg (by simp [hks, hk])]

theorem sumFor_append_singleton (rows : List AcctRow) (x : AcctRow) (k : Option String) :
    sumFor (rows ++ [x]) k = sumFor rows k + (if x.1 = k then x.2 else 0) := by
  induction rows with
  | nil => simp [sumFor]
  | cons r rest ih =>
    rw [List.cons_append]
    rw [show sumFor (r :: (rest ++ [x])) k
        = (if r.1 = k then r.2 else 0) + sumFor (rest ++ [x]) k from rfl]
    rw [show sumFor (r :: rest) k = (if r.1 = k then r.2 else 0) + sumFor rest k from rfl]
    rw [ih, add_assoc]

theorem sumFor_eq_zero_of_not_mem (rows : List AcctRow) (k : Option String)
    (h : k ∉ rows.map Prod.fst) : sumFor rows k = 0 := by
  induction rows with
  | nil => rfl
  | cons r rest ih =>
    simp only [List.map_cons, List.mem_cons] at h
    push_neg at h
    have h1 : r.1 ≠ k := fun hrk => h.1 hrk.symm
    rw [show sumFor (r :: rest) k = (if r.1 = k then r.2 else 0) + sumFor rest k from rfl]
    rw [if_neg h1, ih h.2, add_zero]

theorem addToGroup_of_not_mem (l : List (Option String × Int)) (k : Option String) (a : Int)
    (h : k ∉ l.map Prod.fst) : addToGroup l k a = l ++ [(k, a)] := by
  induction l with
  | nil => rfl
  | cons g rest ih =>
    obtain ⟨k2, v⟩ := g
    simp only [List.map_cons, List.mem_cons] at h
    push_neg at h
    have h1 : k2 ≠ k := fun hk2 => h.1 hk2.symm
    rw [show addToGroup ((k2, v) :: rest) k a
        = if k2 = k then (k2, v + a) :: rest else (k2, v) :: addToGroup rest k a from rfl]
    rw [if_neg h1, ih h.2, List.cons_append]

theorem addToGroup_map_of_mem (keys : List (Option String)) (f : Option String → Int)
    (k : Option String) (a : Int) (hnd : keys.Nodup) (hk : k ∈ keys) :
    addToGroup (keys.map fun key => (key, f key)) k a =
      keys.map fun key => (key, if key = k then f key + a else f key) := by
  induction keys with
  | nil => simp at hk
  | cons key0 rest ih =>
    rw [List.nodup_cons] at hnd
    rw [List.map_cons, List.map_cons]
    rw [show addToGroup ((key0, f key0) :: rest.map fun key => (key, f key)) k a
        = if key0 = k then (key0, f key0 + a) :: rest.map (fun key => (key, f key))
          else (key0, f key0) :: addToGroup (rest.map fun key => (key, f key)) k a from rfl]
    by_cases h0 : key0 = k
    · subst h0
      rw [if_pos rfl, if_pos rfl]
      congr 1
      refine (List.map_congr_left ?_).symm
      intro key hkey
      rw [if_neg (fun h : key = key0 => hnd.1 (h ▸ hkey))]
    · have hk2 : k ∈ rest := by
        rcases List.mem_cons.mp hk with h | h
        · exact absurd h.symm h0
        · exact h
      rw [if_neg h0, if_neg h0, ih hnd.2 hk2]

theorem aggregate_append_singleton (rows : List AcctRow) (x : AcctRow) :
    aggregate (rows ++ [x]) = addToGroup (aggregate rows) x.1 x.2 := by
  simp [aggregate]

theorem map_fst_map_pair (keys : List (Option String)) (f : Option String → Int) :
    ((keys.map fun k => (k, f k)).map Prod.fst) = keys := by
  induction keys with
  | nil => rfl
  | cons k ks ih => simp [ih]

theorem aggSpec_map_fst (rows : List AcctRow) :
    (aggSpec rows).map Prod.fst = firstSeenKeys (rows.map Prod.fst) := by
  rw [aggSpec, map_fst_map_pair]

theorem aggregate_eq_aggSpec (rows : List AcctRow) : aggregate rows = aggSpec rows := by
  induction rows using List.reverseRecOn with
  | nil => simp [aggregate, aggSpec, firstSeenKeys]
  | append_singleton rows x ih =>
    rw [aggregate_append_singleton, ih]
    unfold aggSpec
    have hmap : (rows ++ [x]).map Prod.fst = rows.map Prod.fst ++ [x.1] := by simp
    rw [hmap, firstSeenKeys_append_singleton]
    by_cases hx : x.1 ∈ rows.map Prod.fst
    · rw [if_pos hx]
      rw [addToGroup_map_of_mem _ _ _ _ (firstSeenKeys_nodup _)
        ((mem_firstSeenKeys _ _).mpr hx)]
      apply List.map_congr_left
      intro k _
      rw [sumFor_append_singleton]
      by_cases hkx : k = x.1
      · subst hkx
        rw [if_pos rfl, if_pos rfl]
      · rw [if_neg hkx, if_neg (fun h => hkx h.symm), add_zero]
    · rw [if_neg hx]
      rw [addToGroup_of_not_mem _ _ _
        (by rw [map_fst_map_pair, mem_firstSeenKeys]; exact hx)]
      rw [List.map_append]
      congr 1
      · apply List.map_congr_left
        intro k hk
        have hne : x.1 ≠ k := fun h => hx (h ▸ (mem_firstSeenKeys _ _).mp hk)
        rw [sumFor_append_singleton, if_neg hne, add_zero]
      · have hsum : sumFor (rows ++ [x]) x.1 = x.2 := by
          rw [sumFor_append_singleton, sumFor_eq_zero_of_not_mem rows x.1 hx,
            if_pos rfl, zero_add]
        simp [hsum]

/-- C6.  The identifier aggregation of `dedupacct_cmd` produces exactly
one group per distinct identifier value (rows with a null identifier
all falling into the single `none` group), listed in order of first
occurrence of the identifier in the input, each group carrying the
arithmetic sum of that identifier's amounts. -/
theorem aggregate_spec (rows : List AcctRow) :
    aggregate rows =
      (firstSeenKeys (rows.map Prod.fst)).map (fun k => (k, sumFor rows k)) ∧
    ((aggregate rows).map Prod.fst).Nodup := by
  refine ⟨aggregate_eq_aggSpec rows, ?_⟩
  rw [aggregate_eq_aggSpec rows, aggSpec_map_fst]
  exact firstSeenKeys_nodup _

/-! ### C5: identifier-mode removal is wholesale -/

/-- C5.  In identifier mode every row whose (stringified) identifier is
in the removal set derived from the matched pairs is dropped, whether or
not its own amount took part in the cancelling sums; on the scenario
`T1: +20, +30` and `T2: -50` all three rows are removed (two rows for
one matched identifier, one for the other). -/
theorem matched_identifier_rows_removed :
    dedupacctClean [(some "T1", 20), (some "T1", 30), (some "T2", -50)] = [] ∧
    ∀ (rows : List AcctRow) (r : AcctRow),
      strOfId r.1 ∈ txidsToDrop rows → r ∉ dedupacctClean rows := by
  refine ⟨by decide, ?_⟩
  intro rows r hmem
  by_cases hp : acctPairs rows = []
  · simp [txidsToDrop, hp, removedPositions] at hmem
  · rw [dedupacctClean, if_neg hp]
    intro hr
    have h := List.mem_filter.mp hr
    rw [decide_eq_true_eq] at h
    exact h.2 hmem

/-- Witness for C5: the first `T1` row of the scenario is removed even
though its amount `+20` is not itself cancelled by anything. -/
theorem matched_identifier_rows_removed_witness :
    ((some "T1", (20 : Int)) : AcctRow) ∉
      dedupacctClean [(some "T1", 20), (some "T1", 30), (some "T2", -50)] :=
  matched_identifier_rows_removed.2 _ _ (by decide)

/-! ### C7 and C10: the lookup engine -/

theorem mem_pass1Ids (rows : List AcctRow) (target : Int) (x : String) :
    x ∈ pass1Ids rows target ↔ ∃ r ∈ rows, r.2 = target ∧ r.1 = some x := by
  simp only [pass1Ids, List.mem_filterMap]
  constructor
  · rintro ⟨r, hr, hf⟩
    by_cases h : r.2 = target
    · rw [if_pos h] at hf
      exact ⟨r, hr, h, hf⟩
    · rw [if_neg h] at hf
      exact absurd hf (by simp)
  · rintro ⟨r, hr, h, hf⟩
    exact ⟨r, hr, by rw [if_pos h]; exact hf⟩

theorem pass1Ids_eq_nil_iff (rows : List AcctRow) (target : Int) :
    pass1Ids rows target = [] ↔ ∀ r ∈ rows, r.2 = target → r.1 = none := by
  rw [List.eq_nil_iff_forall_not_mem]
  constructor
  · intro h r hr ht
    cases hid : r.1 with
    | none => rfl
    | some x => exact absurd ((mem_pass1Ids rows target x).mpr ⟨r, hr, ht, hid⟩) (h x)
  · intro h x hx
    obtain ⟨r, hr, ht, hid⟩ := (mem_pass1Ids rows target x).mp hx
    rw [h r hr ht] at hid
    exact Option.noConfusion hid

theorem mem_pass2Rows (rows : List AcctRow) (target : Int) (r : AcctRow) :
    r ∈ pass2Rows rows target ↔
      r ∈ rows ∧ ∃ s ∈ rows, s.2 = target ∧ s.1 = some (strOfId r.1) := by
  rw [pass2Rows, List.mem_filter, decide_eq_true_eq, mem_pass1Ids]

/-- Counterexample to C7 as stated.  On the single record
`(identifier = null, amount = 100)` with lookup target `100`, a record's
amount is exactly the target, yet the lookup fails with `NoMatchError`:
Pass 1 drops null identifiers, so its identifier set is empty. -/
theorem lookup_fails_despite_target_amount :
    ((none, (100 : Int)) : AcctRow) ∈ [((none : Option String), (100 : Int))] ∧
    ((none, (100 : Int)) : AcctRow).2 = 100 ∧
    txlookupRun [((none : Option String), (100 : Int))] 100 = Except.error "NoMatchError" :=
  ⟨by decide, rfl, by rfl⟩

/-- C7 amended.  The lookup fails with `NoMatchError` (exit code 1) iff
no record with a NON-NULL identifier has amount exactly equal to the
target (records with null identifier and the target amount cannot
prevent the failure, which is decided by the Pass 1 identifier set
alone); otherwise it emits exactly those records whose stringified
identifier names some non-null identifier carrying at least one record
with amount equal to the target — not merely the records whose own
amount equals the target. -/
theorem txlookup_amended (rows : List AcctRow) (target : Int) :
    (txlookupRun rows target = Except.error "NoMatchError" ↔
      ∀ r ∈ rows, r.2 = target → r.1 = none) ∧
    ∀ out, txlookupRun rows target = Except.ok out →
      ∀ r, (r ∈ out ↔ r ∈ rows ∧ ∃ s ∈ rows, s.2 = target ∧ s.1 = some (strOfId r.1)) := by
  constructor
  · rw [← pass1Ids_eq_nil_iff]
    constructor
    · intro h
      by_cases hp : pass1Ids rows target = []
      · exact hp
      · rw [txlookupRun, if_neg hp] at h
        exact Except.noConfusion h
    · intro h
      rw [txlookupRun, if_pos h]
  · intro out hout r
    by_cases hp : pass1Ids rows target = []
    · rw [txlookupRun, if_pos hp] at hout
      exact Except.noConfusion hout
    · rw [txlookupRun, if_neg hp] at hout
      have : pass2Rows rows target = out := by
        injection hout
      rw [← this, mem_pass2Rows]

/-- Witness for the amended C7 at the spec's lookup scenario: the row
`(X, -40)` is emitted for target `100` because identifier `X` carries a
`100` row, although `-40 ≠ 100`. -/
theorem txlookup_amended_witness :
    ((some "X", (-40 : Int)) : AcctRow) ∈
        [((some "X" : Option String), (100 : Int)), (some "X", -40), (some "Y", 100)] ∧
      ∃ s ∈ [((some "X" : Option String), (100 : Int)), (some "X", -40), (some "Y", 100)],
        s.2 = 100 ∧ s.1 = some (strOfId (some "X")) :=
  ((txlookup_amended
      [((some "X" : Option String), (100 : Int)), (some "X", -40), (some "Y", 100)] 100).2
    _ rfl ((some "X", -40))).mp (by decide)

/-- Counterexample to C10 as stated.  If a ledger contains a row whose
actual string identifier is `"nan"` with the target amount, Pass 1 puts
`"nan"` into the identifier set, and a null-identifier row — which
`astype(str)` also renders as `"nan"` — then satisfies the Pass 2
membership filter and is emitted. -/
theorem lookup_nan_collision :
    txlookupRun [(some "nan", 100), (none, 7)] 100 =
      Except.ok [(some "nan", 100), (none, 7)] ∧
    ((none, (7 : Int)) : AcctRow) ∈ pass2Rows [(some "nan", 100), (none, 7)] 100 ∧
    ((none, (7 : Int)) : AcctRow).1 = none :=
  ⟨by rfl, by decide, rfl⟩

/-- C10 amended.  A null-identifier record with the target amount
contributes nothing to the Pass 1 identifier set; if the target amount
occurs only on null-identifier rows the lookup fails with
`NoMatchError`; and null-identifier rows never satisfy the Pass 2
membership filter UNLESS the string `"nan"` — the rendering of a null
identifier — itself entered the Pass 1 set through a non-null identifier
literally equal to `"nan"`. -/
theorem lookup_null_identifier_amended (rows : List AcctRow) (target : Int) :
    (∀ x ∈ pass1Ids rows target, ∃ r ∈ rows, r.1 = some x ∧ r.2 = target) ∧
    ((∀ r ∈ rows, r.2 = target → r.1 = none) →
      txlookupRun rows target = Except.error "NoMatchError") ∧
    ("nan" ∉ pass1Ids rows target →
      ∀ r ∈ pass2Rows rows target, r.1 ≠ none) := by
  refine ⟨?_, ?_, ?_⟩
  · intro x hx
    obtain ⟨r, hr, ht, hid⟩ := (mem_pass1Ids rows target x).mp hx
    exact ⟨r, hr, hid, ht⟩
  · intro h
    rw [txlookupRun, if_pos ((pass1Ids_eq_nil_iff rows target).mpr h)]
  · intro hnan r hr hnone
    have h := List.mem_filter.mp hr
    rw [decide_eq_true_eq] at h
    rw [hnone] at h
    exact hnan h.2

/-- Witness for the amended C10: a target occurring only on a
null-identifier row makes the lookup fail, and in a `"nan"`-free ledger
the Pass 2 rows all have non-null identifiers. -/
theorem lookup_null_identifier_amended_witness :
    txlookupRun [((none : Option String), (100 : Int))] 100 = Except.error "NoMatchError" ∧
    ∀ r ∈ pass2Rows [((some "X" : Option String), (100 : Int)), (none, 7)] 100, r.1 ≠ none :=
  ⟨(lookup_null_identifier_amended [((none : Option String), (100 : Int))] 100).2.1 (by decide),
   (lookup_null_identifier_amended
      [((some "X" : Option String), (100 : Int)), (none, 7)] 100).2.2 (by decide)⟩

/-! ### C8: all-or-nothing normalization -/

/-- C8.  If any value of the amount column fails to parse (`none`), both
pipelines fail with the `NonNumericValueError` message and produce no
survivor set; if every value parses, the pipeline — the pair-matching
engine included — always returns a result (it is a total function and
never raises). -/
theorem normalization_all_or_nothing (vals : List (Option Int))
    (rows : List (Option String × Option Int)) :
    (none ∈ vals → dedupCmdRun vals = Except.error "NonNumericValueError") ∧
    ((∀ v ∈ vals, v ≠ none) → ∃ out, dedupCmdRun vals = Except.ok out) ∧
    (none ∈ rows.map Prod.snd → dedupacctCmdRun rows = Except.error "NonNumericValueError") ∧
    ((∀ r ∈ rows, r.2 ≠ none) → ∃ out, dedupacctCmdRun rows = Except.ok out) := by
  refine ⟨fun h => ?_, fun h => ?_, fun h => ?_, fun h => ?_⟩
  · rw [dedupCmdRun, normalizeAmounts, if_pos h]
  · have hn : none ∉ vals := fun hc => h none hc rfl
    rw [dedupCmdRun, normalizeAmounts, if_neg hn]
    exact ⟨_, rfl⟩
  · rw [dedupacctCmdRun, normalizeAmounts, if_pos h]
  · have hn : none ∉ rows.map Prod.snd := by
      intro hc
      obtain ⟨r, hr, hrn⟩ := List.mem_map.mp hc
      exact h r hr hrn
    rw [dedupacctCmdRun, normalizeAmounts, if_neg hn]
    exact ⟨_, rfl⟩

/-- Witness for C8: a column with an unparseable entry fails wholesale;
a fully numeric column succeeds. -/
theorem normalization_all_or_nothing_witness :
    dedupCmdRun [some 1, none] = Except.error "NonNumericValueError" ∧
    ∃ out, dedupCmdRun [some 5, some (-5)] = Except.ok out :=
  ⟨(normalization_all_or_nothing [some 1, none] []).1 (by decide),
   (normalization_all_or_nothing [some 5, some (-5)] []).2.1 (by decide)⟩
